import Mathlib

/-!
Verification development for the `updown` native-shell backend
(`src-tauri/src/lib.rs`): a shallow embedding of the recent-files store,
the pending-file mailbox, the menu synchronizer, the OS open-event bridge
and the Quick Look installer, with theorems checking the specification.

Strings are modelled by Lean `String` / `List Char`; the Rust `Mutex`-held
state is modelled by explicit state passing; fallible filesystem and OS
operations are modelled by `Option`/`Except`-valued environment fields.
-/

namespace UpDown

/-- Rust constant `const MAX_RECENT: usize = 10;`. -/
def MAX_RECENT : Nat := 10

/-! ## Path helpers (`path_basename`) -/

/-- The separator predicate `|c| c == '/' || c == '\\'` from `path_basename`. -/
def isSep (c : Char) : Bool := c = '/' || c = '\\'

/-- Model of `str::rfind(pred)`: index of the last character satisfying `isSep`,
as in `path.rfind(|c| c == '/' || c == '\\')`. -/
def rfindSep : List Char → Option Nat
  | [] => none
  | c :: cs =>
    match rfindSep cs with
    | some i => some (i + 1)
    | none => if isSep c then some 0 else none

/-- Function `path_basename`: `path.rfind(sep).map(|i| &path[i + 1..]).unwrap_or(path)`. -/
def path_basename (s : List Char) : List Char :=
  match rfindSep s with
  | some i => s.drop (i + 1)
  | none => s

/-! ## RecentFiles store -/

/-- The in-place mutation of `add_recent_file` on the locked `Vec<String>`:
`files.retain(|p| p != &path); files.insert(0, path); files.truncate(MAX_RECENT);`. -/
def add_recent_list (files : List String) (path : String) : List String :=
  ((files.filter (fun p => p ≠ path)).insertIdx 0 path).take MAX_RECENT

/-- The process state touched by the recent-files commands: the in-memory
list behind the `RecentFiles` mutex, and the persisted record
(`recent-files.json`). The source ignores persistence failures; `disk`
records the content after a successful `save_recent_to_disk`, which always
writes the full list it is handed. -/
structure AppState where
  recent : List String
  disk : List String
  deriving Repr, DecidableEq

/-- Command `add_recent_file`: mutate the list under the lock, then persist
the full resulting list via `save_recent_to_disk(&app, &files)`. -/
def add_recent_file (s : AppState) (path : String) : AppState :=
  let files := add_recent_list s.recent path
  { recent := files, disk := files }

/-- Menu-event branch `clear_recent`: `files.clear(); save_recent_to_disk(app, &files);`. -/
def clear_recent (_s : AppState) : AppState :=
  { recent := [], disk := [] }

/-! ## Persistence load (`load_recent_from_disk`) -/

/-- Environment for `load_recent_from_disk`: `storagePath` is the result of
`recent_storage_path` (`None` when `app_data_dir` fails), `content` the
result of `fs::read_to_string` (`None` on a missing or unreadable file),
`parseJson` the result of `serde_json::from_str::<Vec<String>>` (`none` on
malformed content), and `fsExists` the `Path::new(p).exists()` check. -/
structure LoadEnv where
  storagePath : Option String
  content : String → Option String
  parseJson : String → Option (List String)
  fsExists : String → Bool

/-- Function `load_recent_from_disk`: empty list when the storage path is unknown,
the file is unreadable, or parsing fails (`unwrap_or_default`); otherwise
filter by on-disk existence and `take(MAX_RECENT)`. -/
def load_recent_from_disk (env : LoadEnv) : List String :=
  match env.storagePath with
  | none => []
  | some path =>
    match env.content path with
    | none => []
    | some c =>
      (((env.parseJson c).getD []).filter env.fsExists).take MAX_RECENT

/-! ## Menu model -/

/-- A native menu entry as far as the rebuild logic distinguishes them:
a labelled `MenuItem::with_id(app, id, label, enabled, None)` or a
`PredefinedMenuItem::separator`. -/
inductive MItem where
  | item (id : String) (label : String) (enabled : Bool)
  | separator
  deriving Repr, DecidableEq

/-- The loop body of `rebuild_recent_menu`:
`for (i, path) in files.iter().enumerate()` appends
`MenuItem::with_id(app, format!("recent_{i}"), path_basename(path), true)`. -/
def rebuildLoop : List String → Nat → List MItem
  | [], _ => []
  | p :: rest, i =>
    MItem.item ("recent_" ++ toString i) (String.mk (path_basename p.toList)) true
      :: rebuildLoop rest (i + 1)

/-- Function `rebuild_recent_menu` after all existing items have been removed: the
submenu content produced by a completed rebuild, as a function of the
cloned `RecentFiles` state. (Item construction/append failures are ignored
in the source; this models the completed, all-successful rebuild.) -/
def rebuild_recent_menu (files : List String) : List MItem :=
  if files.isEmpty then
    [MItem.item "no_recent" "No Recent Items" false]
  else
    rebuildLoop files 0 ++
      [MItem.separator, MItem.item "clear_recent" "Clear Recent Items" true]

/-- The `SubmenuBuilder` accumulator used by the startup code: `.item`
and `.separator` append to the end of the pending item list. -/
def builderItem (b : List MItem) (it : MItem) : List MItem := b ++ [it]

/-- Builder step `SubmenuBuilder::separator()`. -/
def builderSep (b : List MItem) : List MItem := b ++ [MItem.separator]

/-- The `for (i, path) in initial_recent.iter().enumerate()` loop of the
startup menu construction, threading the builder accumulator. -/
def initialLoop : List String → Nat → List MItem → List MItem
  | [], _, b => b
  | p :: rest, i, b =>
    initialLoop rest (i + 1)
      (builderItem b
        (MItem.item ("recent_" ++ toString i) (String.mk (path_basename p.toList)) true))

/-- The initial "Open Recent" submenu built in `setup` from
`initial_recent`: placeholder when empty, else the enumerated items, a
separator and the clear item, accumulated through the builder. -/
def initial_recent_menu (files : List String) : List MItem :=
  if files.isEmpty then
    builderItem [] (MItem.item "no_recent" "No Recent Items" false)
  else
    builderItem (builderSep (initialLoop files 0 []))
      (MItem.item "clear_recent" "Clear Recent Items" true)

/-! ## PendingFile mailbox and OS event bridge -/

/-- Command `get_opened_file`: `state.0.lock().unwrap().take()`. Returns
the returned value together with the slot content afterwards
(`Option::take` leaves `None` behind). -/
def get_opened_file (pending : Option String) : Option String × Option String :=
  (pending, none)

/-- The character `\`. -/
def bslash : Char := '\\'

/-- The character `'` (single quote). -/
def squote : Char := Char.ofNat 39

/-- Model of `str::replace` specialised to a single-character pattern: every
occurrence of `c` is replaced by `r`. -/
def replace_char (s : List Char) (c : Char) (r : List Char) : List Char :=
  s.flatMap (fun x => if x = c then r else [x])

/-- The escaping in `open_file_in_running_app`:
`path_str.replace('\\', "\\\\").replace('\'', "\\'")`. -/
def escape_path (p : List Char) : List Char :=
  replace_char (replace_char p bslash [bslash, bslash]) squote [bslash, squote]

/-- The fixed text before the embedded path in the generated script:
`window.__openFile && window.__openFile('`. -/
def scriptHead : List Char :=
  "window.__openFile && window.__openFile(".toList ++ [squote]

/-- The fixed text after the embedded path: `')`. -/
def scriptTail : List Char := [squote, ')']

/-- The JavaScript handed to `window.eval` by `open_file_in_running_app`:
`format!("window.__openFile && window.__openFile('{}')", escaped)`. -/
def open_file_script (p : List Char) : List Char :=
  scriptHead ++ escape_path p ++ scriptTail

/-- The `RunEvent::Opened` handler body, given the file paths obtained from
the event's URLs and the current `PendingFile` slot. Returns the new slot
content and the path pushed to the UI (the argument of
`open_file_in_running_app`), `none` when no push is attempted:
`files.first()` is used; if present the slot is overwritten and the live
push attempted; otherwise nothing happens. -/
def handle_opened_event (pending : Option String) (files : List String) :
    Option String × Option String :=
  match files.head? with
  | some file => (some file, some file)
  | none => (pending, none)

/-! ## Quick Look installer -/

/-- Model of `PathBuf::join` on already-resolved absolute prefixes, as rendered by
`Display`. -/
def pjoin (a b : String) : String := a ++ "/" ++ b

/-- Environment for `install_quicklook_plugin` / `install_ql_from`:
`isMacos` is the `cfg!(target_os = "macos")` split; `resourceDir` the
result of `path().resource_dir()`; `pathExists` the `Path::exists` oracle;
`home` the `HOME` variable; `createDirErr` / `removeDirErr` / `copyErr`
carry `some e` when `fs::create_dir_all` / `fs::remove_dir_all` /
`copy_dir_recursive` would fail with error `e`; `registerOk` and
`launchOk` are the outcomes of the `pluginkit` calls and the
`/usr/bin/open` launch, whose results the source discards. -/
structure InstallEnv where
  isMacos : Bool
  resourceDir : Except String String
  pathExists : String → Bool
  home : Option String
  createDirErr : Option String
  removeDirErr : Option String
  copyErr : Option String
  registerOk : Bool
  launchOk : Bool

/-- Function `install_ql_from(src)`: resolve `HOME`, ensure `~/Applications`,
replace any stale `UpDownQuickLook.app`, copy the bundle, then issue the
ignored registration and launch calls and report the install path. -/
def install_ql_from (env : InstallEnv) (_src : String) : Except String String :=
  match env.home with
  | none => .error "Cannot determine HOME directory"
  | some home =>
    let apps_dir := pjoin home "Applications"
    let mkdirStep : Except String Unit :=
      if env.pathExists apps_dir then .ok ()
      else
        match env.createDirErr with
        | some e => .error ("Failed to create " ++ apps_dir ++ ": " ++ e)
        | none => .ok ()
    match mkdirStep with
    | .error e => .error e
    | .ok _ =>
      let dest := pjoin apps_dir "UpDownQuickLook.app"
      let removeStep : Except String Unit :=
        if env.pathExists dest then
          match env.removeDirErr with
          | some e => .error ("Failed to remove old Quick Look app: " ++ e)
          | none => .ok ()
        else .ok ()
      match removeStep with
      | .error e => .error e
      | .ok _ =>
        match env.copyErr with
        | some e => .error ("Failed to copy Quick Look app: " ++ e)
        | none =>
          -- `pluginkit -a`, `pluginkit -e use -i …` and `/usr/bin/open`:
          -- the source discards their results (`let _ = …`).
          .ok ("Quick Look extension installed to " ++ dest)

/-- Command `install_quicklook_plugin`: unsupported off macOS; on macOS
resolve the resource dir, probe `resources/UpDownQuickLook.app` then
`UpDownQuickLook.app`, and hand the first existing one to
`install_ql_from`. -/
def install_quicklook_plugin (env : InstallEnv) : Except String String :=
  if env.isMacos then
    match env.resourceDir with
    | .error e => .error ("Failed to get resource dir: " ++ e)
    | .ok rd =>
      let src := pjoin (pjoin rd "resources") "UpDownQuickLook.app"
      if ! env.pathExists src then
        let alt_src := pjoin rd "UpDownQuickLook.app"
        if ! env.pathExists alt_src then
          .error ("Quick Look app not found in app bundle. Checked:\n  "
            ++ src ++ "\n  " ++ alt_src)
        else install_ql_from env alt_src
      else install_ql_from env src
  else
    .error "Quick Look is only available on macOS"

/-- Predicate: `s` contains `sub` as a contiguous substring. -/
def containsSub (s sub : String) : Prop := ∃ a b, s = a ++ sub ++ b

/-- Result of a finite sequence of `add_recent_file` calls on an initially
empty recent-files list (projected to the list component). -/
def apply_adds (ps : List String) : List String := ps.foldl add_recent_list []

/-- Spec-side escaping step, from the claim's words: every backslash is
doubled. -/
def spec_double : List Char → List Char
  | [] => []
  | c :: cs => if c = bslash then bslash :: bslash :: spec_double cs else c :: spec_double cs

/-- Spec-side escaping step, from the claim's words: every single quote is
prefixed by a backslash. -/
def spec_quote : List Char → List Char
  | [] => []
  | c :: cs => if c = squote then bslash :: squote :: spec_quote cs else c :: spec_quote cs

/-! ## Helper lemmas -/

/-- A list without separators has no last separator index. -/
theorem rfindSep_eq_none {s : List Char} (h : ∀ c ∈ s, isSep c = false) :
    rfindSep s = none := by
  induction s with
  | nil => rfl
  | cons c cs ih =>
    have hc : isSep c = false := h c (List.mem_cons_self c cs)
    have hcs : rfindSep cs = none := ih fun x hx => h x (List.mem_cons_of_mem c hx)
    simp [rfindSep, hcs, hc]

/-- The last separator of `a ++ sep :: b` with separator-free `b` sits at
index `a.length`. -/
theorem rfindSep_append {a b : List Char} {sep : Char} (hsep : isSep sep = true)
    (hb : ∀ c ∈ b, isSep c = false) :
    rfindSep (a ++ sep :: b) = some a.length := by
  induction a with
  | nil =>
    simp [rfindSep, rfindSep_eq_none hb, hsep]
  | cons x a ih =>
    simp [rfindSep, ih]

/-! ## Claim theorems -/

/-- C9: basename extraction returns the substring after the last `/` or `\`
separator, the whole path when neither occurs; in particular
`"/a/b/c.md" ↦ "c.md"`, `"C:\a\b.md" ↦ "b.md"`, `"plainname" ↦ "plainname"`. -/
theorem path_basename_spec :
    (∀ (a b : List Char) (sep : Char), isSep sep = true →
      (∀ c ∈ b, isSep c = false) → path_basename (a ++ sep :: b) = b) ∧
    (∀ s : List Char, (∀ c ∈ s, isSep c = false) → path_basename s = s) ∧
    path_basename "/a/b/c.md".toList = "c.md".toList ∧
    path_basename "C:\\a\\b.md".toList = "b.md".toList ∧
    path_basename "plainname".toList = "plainname".toList := by
  refine ⟨?_, ?_, by decide, by decide, by decide⟩
  · intro a b sep hsep hb
    have h1 : rfindSep (a ++ sep :: b) = some a.length := rfindSep_append hsep hb
    simp only [path_basename, h1]
    have he : a ++ sep :: b = (a ++ [sep]) ++ b := by simp
    have hl : a.length + 1 = (a ++ [sep]).length := by simp
    rw [he, hl, List.drop_left]
  · intro s hs
    simp only [path_basename, rfindSep_eq_none hs]

/-- Witness for C9 at concrete inputs. -/
theorem path_basename_spec_witness :
    path_basename ("ab".toList ++ '/' :: "c.md".toList) = "c.md".toList ∧
    path_basename "plain".toList = "plain".toList :=
  ⟨path_basename_spec.1 "ab".toList "c.md".toList '/' (by decide) (by decide),
   path_basename_spec.2.1 "plain".toList (by decide)⟩

/-- C6: the pending-file take reads and clears in one step: a full slot
returns its path and is left empty, an empty slot returns none and stays
empty, and a second take right after a consuming take returns none. -/
theorem get_opened_file_spec :
    (∀ p : String, get_opened_file (some p) = (some p, none)) ∧
    get_opened_file (none : Option String) = (none, none) ∧
    (∀ p : String, get_opened_file (get_opened_file (some p)).2 = (none, none)) :=
  ⟨fun _ => rfl, rfl, fun _ => rfl⟩

/-- C5: an open event with a non-empty file list uses exactly the first
path — the slot is overwritten with it regardless of its prior content and
the live push is attempted with it, independent of the remaining paths —
and an event with an empty list has no effect. -/
theorem handle_opened_event_spec :
    (∀ (pending : Option String) (f : String) (rest : List String),
      handle_opened_event pending (f :: rest) = (some f, some f)) ∧
    (∀ pending : Option String, handle_opened_event pending [] = (pending, none)) :=
  ⟨fun _ _ _ => rfl, fun _ => rfl⟩

/-- C1: `add_recent_file` removes existing occurrences of the path (exact
string equality), inserts it at index 0, truncates to `MAX_RECENT` and
persists the full resulting list; the add-sequence `a, b, a` from an empty
state ends in `[a, b]`. -/
theorem add_recent_file_spec :
    (∀ (s : AppState) (path : String),
      (add_recent_file s path).recent =
        (path :: s.recent.filter (fun p => p ≠ path)).take MAX_RECENT ∧
      (add_recent_file s path).disk = (add_recent_file s path).recent) ∧
    (add_recent_file (add_recent_file (add_recent_file ⟨[], []⟩ "/x/a.md") "/x/b.md")
        "/x/a.md").recent = ["/x/a.md", "/x/b.md"] := by
  constructor
  · intro s path
    exact ⟨by simp [add_recent_file, add_recent_list, List.insertIdx], rfl⟩
  · rfl

/-- C3: loading is total (never raises); a missing storage path, unreadable
file or malformed record yields the empty list; a well-formed record is
filtered by on-disk existence with the survivors in their original relative
order (a sublist of the record) and capped at `MAX_RECENT`. -/
theorem load_recent_from_disk_spec :
    (∀ env : LoadEnv, env.storagePath = none → load_recent_from_disk env = []) ∧
    (∀ (env : LoadEnv) (path : String), env.storagePath = some path →
      env.content path = none → load_recent_from_disk env = []) ∧
    (∀ (env : LoadEnv) (path c : String), env.storagePath = some path →
      env.content path = some c → env.parseJson c = none →
      load_recent_from_disk env = []) ∧
    (∀ (env : LoadEnv) (path c : String) (l : List String),
      env.storagePath = some path → env.content path = some c →
      env.parseJson c = some l →
      load_recent_from_disk env = (l.filter env.fsExists).take MAX_RECENT ∧
      (load_recent_from_disk env).Sublist l ∧
      (load_recent_from_disk env).length ≤ MAX_RECENT) := by
  refine ⟨?_, ?_, ?_, ?_⟩
  · intro env h
    simp [load_recent_from_disk, h]
  · intro env path h1 h2
    simp [load_recent_from_disk, h1, h2]
  · intro env path c h1 h2 h3
    simp [load_recent_from_disk, h1, h2, h3]
  · intro env path c l h1 h2 h3
    have he : load_recent_from_disk env = (l.filter env.fsExists).take MAX_RECENT := by
      simp [load_recent_from_disk, h1, h2, h3]
    refine ⟨he, ?_, ?_⟩
    · rw [he]
      exact (List.take_sublist _ _).trans (List.filter_sublist l)
    · rw [he]
      exact List.length_take_le _ _

/-- Witness for C3 at a concrete environment. -/
theorem load_recent_from_disk_spec_witness :
    load_recent_from_disk ⟨none, fun _ => none, fun _ => none, fun _ => true⟩ = [] ∧
    load_recent_from_disk ⟨some "s", fun _ => none, fun _ => none, fun _ => true⟩ = [] ∧
    load_recent_from_disk ⟨some "s", fun _ => some "c", fun _ => none, fun _ => true⟩ = [] ∧
    load_recent_from_disk
      ⟨some "s", fun _ => some "c", fun _ => some ["a", "b"], fun _ => true⟩ = ["a", "b"] := by
  refine ⟨load_recent_from_disk_spec.1 _ rfl,
    load_recent_from_disk_spec.2.1 _ "s" rfl rfl,
    load_recent_from_disk_spec.2.2.1 _ "s" "c" rfl rfl rfl, ?_⟩
  have h := (load_recent_from_disk_spec.2.2.2
    ⟨some "s", fun _ => some "c", fun _ => some ["a", "b"], fun _ => true⟩
    "s" "c" ["a", "b"] rfl rfl rfl).1
  rw [h]
  rfl

/-- Backslash doubling via `str::replace` agrees with the character-wise
spec description. -/
theorem replace_char_bslash (p : List Char) :
    replace_char p bslash [bslash, bslash] = spec_double p := by
  induction p with
  | nil => rfl
  | cons c cs ih =>
    by_cases h : c = bslash
    · simp [replace_char, spec_double, h] at ih ⊢
      exact ih
    · simp [replace_char, spec_double, h] at ih ⊢
      exact ih

/-- Quote escaping via `str::replace` agrees with the character-wise spec
description. -/
theorem replace_char_squote (p : List Char) :
    replace_char p squote [bslash, squote] = spec_quote p := by
  induction p with
  | nil => rfl
  | cons c cs ih =>
    by_cases h : c = squote
    · simp [replace_char, spec_quote, h] at ih ⊢
      exact ih
    · simp [replace_char, spec_quote, h] at ih ⊢
      exact ih

/-- C10: the script handed to the UI is exactly the fixed template around
the path escaped by first doubling every backslash and then prefixing every
single quote with a backslash; equal paths give equal scripts; checked on a
path containing both a backslash and a quote. -/
theorem open_file_script_spec :
    (∀ p : List Char,
      open_file_script p = scriptHead ++ spec_quote (spec_double p) ++ scriptTail) ∧
    (∀ p q : List Char, p = q → open_file_script p = open_file_script q) ∧
    open_file_script ['a', bslash, squote, 'b'] =
      scriptHead ++ ['a', bslash, bslash, bslash, squote, 'b'] ++ scriptTail := by
  refine ⟨?_, ?_, by decide⟩
  · intro p
    unfold open_file_script escape_path
    rw [replace_char_bslash, replace_char_squote]
  · intro p q h
    rw [h]

/-- Witness for C10 at concrete paths. -/
theorem open_file_script_spec_witness :
    open_file_script ['a'] = scriptHead ++ spec_quote (spec_double ['a']) ++ scriptTail ∧
    open_file_script ['x'] = open_file_script ['x'] :=
  ⟨open_file_script_spec.1 ['a'], open_file_script_spec.2.1 ['x'] ['x'] rfl⟩

/-- The startup builder loop appends exactly the items the rebuild loop
produces, in the same order. -/
theorem initialLoop_eq (files : List String) :
    ∀ (i : Nat) (b : List MItem), initialLoop files i b = b ++ rebuildLoop files i := by
  induction files with
  | nil => intro i b; simp [initialLoop, rebuildLoop]
  | cons p rest ih =>
    intro i b
    simp [initialLoop, rebuildLoop, builderItem, ih (i + 1)]

/-- C8: the initial "Open Recent" submenu built during setup and the
submenu produced by a completed `rebuild_recent_menu` are the same
projection of the store: identical item identities, labels and enabled
flags, for every store state. -/
theorem initial_recent_menu_eq_rebuild (files : List String) :
    initial_recent_menu files = rebuild_recent_menu files := by
  by_cases h : files.isEmpty
  · simp [initial_recent_menu, rebuild_recent_menu, h, builderItem]
  · simp [initial_recent_menu, rebuild_recent_menu, h, builderItem, builderSep,
      initialLoop_eq files 0 []]

/-- The rebuild loop yields one item per store entry. -/
theorem rebuildLoop_length (files : List String) :
    ∀ k : Nat, (rebuildLoop files k).length = files.length := by
  induction files with
  | nil => intro k; rfl
  | cons p rest ih => intro k; simp [rebuildLoop, ih (k + 1)]

/-- The item at offset `i` of the rebuild loop started at counter `k` is
the enabled `recent_<k+i>` item labelled with the basename of the `i`-th
remaining path. -/
theorem rebuildLoop_get (files : List String) :
    ∀ (k i : Nat) (h : i < files.length),
      (rebuildLoop files k)[i]? =
        some (MItem.item ("recent_" ++ toString (k + i))
          (String.mk (path_basename (files.get ⟨i, h⟩).toList)) true) := by
  induction files with
  | nil => intro k i h; exact absurd h (by simp)
  | cons p rest ih =>
    intro k i h
    match i with
    | 0 => simp [rebuildLoop]
    | j + 1 =>
      have hj : j < rest.length := by simpa using h
      have := ih (k + 1) j hj
      simp only [rebuildLoop, List.getElem?_cons_succ, this, List.get]
      have harith : k + 1 + j = k + (j + 1) := by omega
      rw [harith]

/-- C4: a completed rebuild of the "Open Recent" submenu yields, for the
empty store, exactly one disabled placeholder and nothing else; for a store
of N entries, N enabled items in store order — the i-th labelled with the
basename of the i-th path under identity `recent_<i>` — then one separator
and one enabled "Clear Recent Items" item. -/
theorem rebuild_recent_menu_spec :
    rebuild_recent_menu [] = [MItem.item "no_recent" "No Recent Items" false] ∧
    (∀ files : List String, files ≠ [] →
      (rebuild_recent_menu files).length = files.length + 2 ∧
      (∀ (i : Nat) (h : i < files.length),
        (rebuild_recent_menu files)[i]? =
          some (MItem.item ("recent_" ++ toString i)
            (String.mk (path_basename (files.get ⟨i, h⟩).toList)) true)) ∧
      (rebuild_recent_menu files)[files.length]? = some MItem.separator ∧
      (rebuild_recent_menu files)[files.length + 1]? =
        some (MItem.item "clear_recent" "Clear Recent Items" true)) := by
  refine ⟨rfl, ?_⟩
  intro files hne
  have hempty : files.isEmpty = false := by
    cases files with
    | nil => exact absurd rfl hne
    | cons a l => rfl
  have hmenu : rebuild_recent_menu files =
      rebuildLoop files 0 ++
        [MItem.separator, MItem.item "clear_recent" "Clear Recent Items" true] := by
    simp [rebuild_recent_menu, hempty]
  have hlen := rebuildLoop_length files 0
  refine ⟨?_, ?_, ?_, ?_⟩
  · rw [hmenu]
    simp [hlen]
  · intro i h
    rw [hmenu]
    rw [List.getElem?_append_left (by rw [hlen]; exact h)]
    have := rebuildLoop_get files 0 i h
    simpa using this
  · rw [hmenu]
    rw [List.getElem?_append_right (by rw [hlen])]
    simp [hlen]
  · rw [hmenu]
    rw [List.getElem?_append_right (by rw [hlen]; omega)]
    simp [hlen]

/-- Witness for C4 at the one-entry store. -/
theorem rebuild_recent_menu_spec_witness :
    (rebuild_recent_menu ["/x/a.md"]).length = 3 ∧
    (rebuild_recent_menu ["/x/a.md"])[0]? =
      some (MItem.item ("recent_" ++ toString 0)
        (String.mk (path_basename "/x/a.md".toList)) true) ∧
    (rebuild_recent_menu ["/x/a.md"])[1]? = some MItem.separator ∧
    (rebuild_recent_menu ["/x/a.md"])[2]? =
      some (MItem.item "clear_recent" "Clear Recent Items" true) := by
  have h := rebuild_recent_menu_spec.2 ["/x/a.md"] (by simp)
  exact ⟨h.1, by simpa using h.2.1 0 (by simp), by simpa using h.2.2.1,
    by simpa using h.2.2.2⟩

/-- Unfolding of the add mutation: prepend after exact-match removal, then cap. -/
theorem add_recent_list_eq (l : List String) (p : String) :
    add_recent_list l p = (p :: l.filter (fun q => q ≠ p)).take MAX_RECENT := by
  unfold add_recent_list
  rw [List.insertIdx_zero]

/-- The freshly added path always sits at index 0. -/
theorem add_recent_list_head (l : List String) (p : String) :
    (add_recent_list l p).head? = some p := by
  rw [add_recent_list_eq]
  rfl

/-- The capped list never exceeds `MAX_RECENT` entries. -/
theorem add_recent_list_length_le (l : List String) (p : String) :
    (add_recent_list l p).length ≤ MAX_RECENT := by
  unfold add_recent_list
  exact List.length_take_le _ _

/-- Adding preserves freedom from duplicates. -/
theorem add_recent_list_nodup (l : List String) (p : String) (h : l.Nodup) :
    (add_recent_list l p).Nodup := by
  rw [add_recent_list_eq]
  have h1 : (l.filter (fun q => q ≠ p)).Nodup := h.filter _
  have h2 : p ∉ l.filter (fun q => q ≠ p) := by simp
  exact List.Nodup.sublist (List.take_sublist _ _) (List.nodup_cons.mpr ⟨h2, h1⟩)

/-- Every add sequence keeps the list duplicate-free. -/
theorem foldl_add_nodup (ps : List String) : ∀ l : List String, l.Nodup →
    (ps.foldl add_recent_list l).Nodup := by
  induction ps with
  | nil => intro l h; exact h
  | cons p ps ih => intro l h; exact ih _ (add_recent_list_nodup l p h)

/-- Every add sequence keeps the list within the cap. -/
theorem foldl_add_length (ps : List String) : ∀ l : List String, l.length ≤ MAX_RECENT →
    (ps.foldl add_recent_list l).length ≤ MAX_RECENT := by
  induction ps with
  | nil => intro l h; exact h
  | cons p ps ih => intro l _; exact ih _ (add_recent_list_length_le l p)

/-- Appending `p` to an add history deduplicates to the filtered old
dedup followed by `p` (`dedup` keeps last occurrences). -/
theorem dedup_append_singleton (l : List String) (p : String) :
    (l ++ [p]).dedup = l.dedup.filter (fun q => q ≠ p) ++ [p] := by
  induction l with
  | nil => simp
  | cons x l ih =>
    by_cases hxp : x = p
    · subst hxp
      have hmem : x ∈ l ++ [x] := by simp
      rw [List.cons_append, List.dedup_cons_of_mem hmem, ih]
      by_cases hxl : x ∈ l
      · rw [List.dedup_cons_of_mem hxl]
      · rw [List.dedup_cons_of_not_mem hxl, List.filter_cons]
        simp
    · by_cases hxl : x ∈ l
      · have hmem : x ∈ l ++ [p] := List.mem_append_left _ hxl
        rw [List.cons_append, List.dedup_cons_of_mem hmem,
          List.dedup_cons_of_mem hxl, ih]
      · have hmem : x ∉ l ++ [p] := by simp [hxl, hxp]
        rw [List.cons_append, List.dedup_cons_of_not_mem hmem,
          List.dedup_cons_of_not_mem hxl, ih, List.filter_cons]
        simp [hxp]

/-- For a duplicate-free list, filtering one element out of an
`(n+1)`-prefix and re-truncating to `n` equals truncating the full
filtered list to `n`. -/
theorem filter_take_comm : ∀ (l : List String) (p : String) (n : Nat), l.Nodup →
    ((l.take (n + 1)).filter (fun q => q ≠ p)).take n =
      (l.filter (fun q => q ≠ p)).take n := by
  intro l
  induction l with
  | nil => intro p n _; simp
  | cons x xs ih =>
    intro p n hnd
    have hx : xs.Nodup := (List.nodup_cons.mp hnd).2
    rw [List.take_succ_cons]
    by_cases hxp : x = p
    · subst hxp
      have hpx : x ∉ xs := (List.nodup_cons.mp hnd).1
      have hfx : xs.filter (fun q => q ≠ x) = xs := by
        rw [List.filter_eq_self]
        intro a ha
        simp only [ne_eq, decide_eq_true_eq]
        exact fun he => hpx (he ▸ ha)
      have hft : (xs.take n).filter (fun q => q ≠ x) = xs.take n := by
        rw [List.filter_eq_self]
        intro a ha
        simp only [ne_eq, decide_eq_true_eq]
        exact fun he => hpx (he ▸ List.take_subset n xs ha)
      rw [List.filter_cons_of_neg (by simp), List.filter_cons_of_neg (by simp),
        hft, hfx, List.take_take]
      simp
    · rw [List.filter_cons_of_pos (by simp [hxp]), List.filter_cons_of_pos (by simp [hxp])]
      cases n with
      | zero => simp
      | succ m =>
        rw [List.take_succ_cons, List.take_succ_cons, ih p m hx]

/-- Closed form of an add sequence from the empty list: the most-recent-first
enumeration of the distinct added paths (each at its latest add), capped at
`MAX_RECENT`. -/
theorem apply_adds_eq (ps : List String) :
    apply_adds ps = (ps.dedup.reverse).take MAX_RECENT := by
  induction ps using List.reverseRecOn with
  | nil => rfl
  | append_singleton ps p ih =>
    have h1 : apply_adds (ps ++ [p]) = add_recent_list (apply_adds ps) p := by
      unfold apply_adds
      rw [List.foldl_append]
      rfl
    rw [h1, ih, add_recent_list_eq, dedup_append_singleton]
    have h2 : MAX_RECENT = 9 + 1 := rfl
    simp only [List.reverse_append, List.reverse_cons, List.reverse_nil,
      List.nil_append, List.singleton_append]
    rw [h2, List.take_succ_cons, List.take_succ_cons]
    have h3 := filter_take_comm (ps.dedup.reverse) p 9
      ((List.nodup_reverse).mpr (List.nodup_dedup ps))
    rw [h3, ← List.filter_reverse]

/-- C2: any add sequence from the empty list yields a duplicate-free list of
length at most 10, ordered most-recent-first (closed form: the reversed
dedup of the history, capped); with 10 distinct entries present, adding an
11th distinct path keeps 10 entries, drops the last and puts the new path
at index 0; adding a present path moves it to index 0 without changing the
length. -/
theorem recent_invariants_spec :
    (∀ ps : List String, (apply_adds ps).Nodup ∧ (apply_adds ps).length ≤ MAX_RECENT) ∧
    (∀ ps : List String, apply_adds ps = (ps.dedup.reverse).take MAX_RECENT) ∧
    (∀ (l : List String) (p : String), l.Nodup → l.length = MAX_RECENT → p ∉ l →
      add_recent_list l p = p :: l.dropLast ∧
      (add_recent_list l p).length = MAX_RECENT ∧
      (add_recent_list l p).head? = some p) ∧
    (∀ (l : List String) (p : String), l.Nodup → p ∈ l → l.length ≤ MAX_RECENT →
      (add_recent_list l p).length = l.length ∧
      (add_recent_list l p).head? = some p) := by
  refine ⟨?_, apply_adds_eq, ?_, ?_⟩
  · intro ps
    exact ⟨foldl_add_nodup ps [] List.nodup_nil,
      foldl_add_length ps [] (by simp [MAX_RECENT])⟩
  · intro l p hnd hlen hmem
    have hf : l.filter (fun q => q ≠ p) = l := by
      rw [List.filter_eq_self]
      intro a ha
      simp only [ne_eq, decide_eq_true_eq]
      exact fun he => hmem (he ▸ ha)
    have h9 : MAX_RECENT = 9 + 1 := rfl
    have hmain : add_recent_list l p = p :: l.dropLast := by
      rw [add_recent_list_eq, hf, h9, List.take_succ_cons, List.dropLast_eq_take, hlen]
      rfl
    refine ⟨hmain, ?_, add_recent_list_head l p⟩
    rw [hmain]
    simp only [List.length_cons, List.dropLast_eq_take, List.length_take, hlen]
    rfl
  · intro l p hnd hmem hlen
    have hfe : l.filter (fun q => q ≠ p) = l.erase p := by
      rw [List.Nodup.erase_eq_filter hnd p]
      apply List.filter_congr
      intro a _
      simp [bne, beq_eq_decide]
    have hflen : (l.filter (fun q => q ≠ p)).length = l.length - 1 := by
      rw [hfe]
      exact List.length_erase_of_mem hmem
    have hpos : 0 < l.length := List.length_pos_of_mem hmem
    have hM : MAX_RECENT = 10 := rfl
    refine ⟨?_, add_recent_list_head l p⟩
    rw [add_recent_list_eq, List.length_take, List.length_cons, hflen]
    rw [hM] at hlen ⊢
    omega

/-- Witness for C2 at concrete lists. -/
theorem recent_invariants_spec_witness :
    add_recent_list ["/1", "/2", "/3", "/4", "/5", "/6", "/7", "/8", "/9", "/t"] "/0" =
      "/0" :: ["/1", "/2", "/3", "/4", "/5", "/6", "/7", "/8", "/9", "/t"].dropLast ∧
    (add_recent_list ["/a", "/b"] "/b").length = 2 := by
  constructor
  · exact (recent_invariants_spec.2.2.1 _ "/0" (by decide) (by decide) (by decide)).1
  · have h := (recent_invariants_spec.2.2.2 ["/a", "/b"] "/b"
      (by decide) (by decide) (by decide)).1
    simpa using h

/-- C7: the installer errs with the unsupported-platform message on any
non-macOS build; on macOS it probes the two bundle locations in fixed
order, erring with a message listing both checked paths verbatim when
neither exists; HOME resolution, directory creation, stale removal and
copy failures each abort with the first hard-error message; the ignored
registration/launch outcomes never influence the result; success returns a
message containing the resolved install path. -/
theorem install_quicklook_plugin_spec :
    (∀ env : InstallEnv, env.isMacos = false →
      install_quicklook_plugin env = .error "Quick Look is only available on macOS") ∧
    (∀ (env : InstallEnv) (e : String), env.isMacos = true →
      env.resourceDir = .error e →
      install_quicklook_plugin env = .error ("Failed to get resource dir: " ++ e)) ∧
    (∀ (env : InstallEnv) (rd : String), env.isMacos = true →
      env.resourceDir = .ok rd →
      env.pathExists (pjoin (pjoin rd "resources") "UpDownQuickLook.app") = false →
      env.pathExists (pjoin rd "UpDownQuickLook.app") = false →
      install_quicklook_plugin env =
        .error ("Quick Look app not found in app bundle. Checked:\n  "
          ++ pjoin (pjoin rd "resources") "UpDownQuickLook.app"
          ++ "\n  " ++ pjoin rd "UpDownQuickLook.app")) ∧
    (∀ (env : InstallEnv) (rd : String), env.isMacos = true →
      env.resourceDir = .ok rd →
      env.pathExists (pjoin (pjoin rd "resources") "UpDownQuickLook.app") = true →
      install_quicklook_plugin env =
        install_ql_from env (pjoin (pjoin rd "resources") "UpDownQuickLook.app")) ∧
    (∀ (env : InstallEnv) (rd : String), env.isMacos = true →
      env.resourceDir = .ok rd →
      env.pathExists (pjoin (pjoin rd "resources") "UpDownQuickLook.app") = false →
      env.pathExists (pjoin rd "UpDownQuickLook.app") = true →
      install_quicklook_plugin env = install_ql_from env (pjoin rd "UpDownQuickLook.app")) ∧
    (∀ (env : InstallEnv) (src : String), env.home = none →
      install_ql_from env src = .error "Cannot determine HOME directory") ∧
    (∀ (env : InstallEnv) (src h e : String), env.home = some h →
      env.pathExists (pjoin h "Applications") = false →
      env.createDirErr = some e →
      install_ql_from env src =
        .error ("Failed to create " ++ pjoin h "Applications" ++ ": " ++ e)) ∧
    (∀ (env : InstallEnv) (src h e : String), env.home = some h →
      env.pathExists (pjoin h "Applications") = true →
      env.pathExists (pjoin (pjoin h "Applications") "UpDownQuickLook.app") = true →
      env.removeDirErr = some e →
      install_ql_from env src =
        .error ("Failed to remove old Quick Look app: " ++ e)) ∧
    (∀ (env : InstallEnv) (src h e : String), env.home = some h →
      env.pathExists (pjoin h "Applications") = true →
      env.pathExists (pjoin (pjoin h "Applications") "UpDownQuickLook.app") = false →
      env.copyErr = some e →
      install_ql_from env src = .error ("Failed to copy Quick Look app: " ++ e)) ∧
    (∀ (m : Bool) (rdv : Except String String) (pe : String → Bool)
      (hm : Option String) (cd rm cp : Option String) (r1 l1 r2 l2 : Bool),
      install_quicklook_plugin ⟨m, rdv, pe, hm, cd, rm, cp, r1, l1⟩ =
        install_quicklook_plugin ⟨m, rdv, pe, hm, cd, rm, cp, r2, l2⟩) ∧
    (∀ (env : InstallEnv) (src h : String), env.home = some h →
      env.pathExists (pjoin h "Applications") = true →
      env.pathExists (pjoin (pjoin h "Applications") "UpDownQuickLook.app") = false →
      env.copyErr = none →
      install_ql_from env src =
        .ok ("Quick Look extension installed to "
          ++ pjoin (pjoin h "Applications") "UpDownQuickLook.app") ∧
      containsSub ("Quick Look extension installed to "
          ++ pjoin (pjoin h "Applications") "UpDownQuickLook.app")
        (pjoin (pjoin h "Applications") "UpDownQuickLook.app")) := by
  refine ⟨?_, ?_, ?_, ?_, ?_, ?_, ?_, ?_, ?_, ?_, ?_⟩
  · intro env h
    simp [install_quicklook_plugin, h]
  · intro env e hm hr
    simp [install_quicklook_plugin, hm, hr]
  · intro env rd hm hr h1 h2
    simp [install_quicklook_plugin, hm, hr, h1, h2]
  · intro env rd hm hr h1
    simp [install_quicklook_plugin, hm, hr, h1]
  · intro env rd hm hr h1 h2
    simp [install_quicklook_plugin, hm, hr, h1, h2]
  · intro env src hh
    simp [install_ql_from, hh]
  · intro env src h e hh h1 h2
    simp [install_ql_from, hh, h1, h2]
  · intro env src h e hh h1 h2 h3
    simp [install_ql_from, hh, h1, h2, h3]
  · intro env src h e hh h1 h2 h3
    simp [install_ql_from, hh, h1, h2, h3]
  · intro m rdv pe hm cd rm cp r1 l1 r2 l2
    rfl
  · intro env src h hh h1 h2 h3
    refine ⟨?_, "Quick Look extension installed to ", "", by simp⟩
    simp [install_ql_from, hh, h1, h2, h3]

/-- Witness for C7 at concrete environments. -/
theorem install_quicklook_plugin_spec_witness :
    install_quicklook_plugin ⟨false, .ok "r", fun _ => true, some "h", none, none, none, true, true⟩
      = .error "Quick Look is only available on macOS" ∧
    install_quicklook_plugin ⟨true, .error "boom", fun _ => true, some "h", none, none, none, true, true⟩
      = .error ("Failed to get resource dir: " ++ "boom") ∧
    install_quicklook_plugin ⟨true, .ok "rd", fun _ => false, some "h", none, none, none, true, true⟩
      = .error ("Quick Look app not found in app bundle. Checked:\n  "
          ++ pjoin (pjoin "rd" "resources") "UpDownQuickLook.app"
          ++ "\n  " ++ pjoin "rd" "UpDownQuickLook.app") ∧
    install_quicklook_plugin ⟨true, .ok "rd", fun _ => true, some "h", none, some "re", none, true, true⟩
      = install_ql_from ⟨true, .ok "rd", fun _ => true, some "h", none, some "re", none, true, true⟩
          (pjoin (pjoin "rd" "resources") "UpDownQuickLook.app") ∧
    install_quicklook_plugin
        ⟨true, .ok "rd", fun s => s = pjoin "rd" "UpDownQuickLook.app", some "h", none, none, none, true, true⟩
      = install_ql_from
          ⟨true, .ok "rd", fun s => s = pjoin "rd" "UpDownQuickLook.app", some "h", none, none, none, true, true⟩
          (pjoin "rd" "UpDownQuickLook.app") ∧
    install_ql_from ⟨true, .ok "rd", fun _ => true, none, none, none, none, true, true⟩ "s"
      = .error "Cannot determine HOME directory" ∧
    install_ql_from ⟨true, .ok "rd", fun _ => false, some "h", some "ce", none, none, true, true⟩ "s"
      = .error ("Failed to create " ++ pjoin "h" "Applications" ++ ": " ++ "ce") ∧
    install_ql_from ⟨true, .ok "rd", fun _ => true, some "h", none, some "re", none, true, true⟩ "s"
      = .error ("Failed to remove old Quick Look app: " ++ "re") ∧
    install_ql_from
        ⟨true, .ok "rd", fun s => s = pjoin "h" "Applications", some "h", none, none, some "cp", true, true⟩ "s"
      = .error ("Failed to copy Quick Look app: " ++ "cp") ∧
    install_ql_from
        ⟨true, .ok "rd", fun s => s = pjoin "h" "Applications", some "h", none, none, none, true, true⟩ "s"
      = .ok ("Quick Look extension installed to "
          ++ pjoin (pjoin "h" "Applications") "UpDownQuickLook.app") := by
  refine ⟨install_quicklook_plugin_spec.1 _ rfl,
    install_quicklook_plugin_spec.2.1 _ "boom" rfl rfl,
    install_quicklook_plugin_spec.2.2.1 _ "rd" rfl rfl rfl rfl,
    install_quicklook_plugin_spec.2.2.2.1 _ "rd" rfl rfl rfl,
    install_quicklook_plugin_spec.2.2.2.2.1 _ "rd" rfl rfl (by simp [pjoin]) (by simp),
    install_quicklook_plugin_spec.2.2.2.2.2.1 _ "s" rfl,
    install_quicklook_plugin_spec.2.2.2.2.2.2.1 _ "s" "h" "ce" rfl rfl rfl,
    install_quicklook_plugin_spec.2.2.2.2.2.2.2.1 _ "s" "h" "re" rfl rfl rfl rfl,
    install_quicklook_plugin_spec.2.2.2.2.2.2.2.2.1 _ "s" "h" "cp" rfl rfl (by simp [pjoin]) rfl,
    (install_quicklook_plugin_spec.2.2.2.2.2.2.2.2.2.2 _ "s" "h" rfl rfl (by simp [pjoin]) rfl).1⟩

end UpDown
